import Mathlib

/-!
A shallow embedding of the asynchronous data-fetch lifecycle of the
`UserList` component (the "AsyncListLoader" of the specification).
The source is the `useEffect` block of `UserList`:

  - three state cells: `users` (initially `[]`), `loading` (initially
    `true`), `error` (initially `null`);
  - each effect run ("fetch cycle") captures a fresh `cancelled` flag,
    runs `load`: `setLoading(true); setError(null);
    const data = await fetchUsers();` then commits `setUsers(data)` /
    `setError(err instanceof Error ? err.message : "Something went wrong")`
    / `setLoading(false)`, each guarded by `if (!cancelled)`;
  - the effect cleanup sets that run's `cancelled` flag; React runs the
    cleanup when the effect is re-run (a newer cycle starts) and at
    unmount (dispose).

Cycles are numbered in start order; the flags of cycle `i` live at index
`i`.  An event is a `start` (effect run), the settlement of cycle `i`'s
promise, or `dispose` (unmount cleanup).  JavaScript's scheduler delivers
each settlement continuation atomically and at most once per promise,
which the step function reflects via the `settled` flag and the guard
that only started cycles can settle.
-/

namespace AsyncLoader

/-- The three React state cells of `UserList`: `users`
(`useState<User[]>([])`), `loading` (`useState(true)`), and `error`
(`useState<string | null>(null)`), with the element type left abstract. -/
structure UserListState (α : Type) where
  users : List α
  loading : Bool
  error : Option String
  deriving DecidableEq

/-- A JavaScript rejection value, as far as the `catch` branch inspects
it: either an `instanceof Error` whose `message` is a string (possibly
empty), or any non-Error value, which may or may not carry a `message`
field (strings, numbers, plain objects). -/
inductive RejectionValue where
  | errorInstance (message : String)
  | nonError (message : Option String)
  deriving DecidableEq

/-- Embeds the normalization expression of the `catch` branch:
`err instanceof Error ? err.message : "Something went wrong"`. -/
def normalizeError : RejectionValue → String
  | .errorInstance message => message
  | .nonError _ => "Something went wrong"

/-- The settlement of one `fetchUsers()` promise: fulfilled with a list
of items, or rejected with some value.  A promise that never settles has
no settlement event at all.  A synchronous `throw` inside `fetchFn` is
also a rejection here, since the call happens inside the `try` block. -/
abbrev FetchOutcome (α : Type) := Except RejectionValue (List α)

/-- The body of the `try` block after the `await` resumes for a cycle
whose flag is `cancelled`: on fulfillment `if (!cancelled) setUsers(data)`;
a rejection propagates out of the `try` block as an exception. -/
def loadTryBlock (cancelled : Bool) (s : UserListState α)
    (outcome : FetchOutcome α) : Except RejectionValue (UserListState α) :=
  match outcome with
  | .ok data => .ok (if cancelled then s else { s with users := data })
  | .error err => .error err

/-- Embeds the whole `try`/`catch`/`finally` of `load` from the point the
awaited promise settles: the `catch` branch absorbs the exception with
`if (!cancelled) setError(normalizeError err)`, and the `finally` branch
runs `if (!cancelled) setLoading(false)` on every path before the result
leaves `load`. -/
def loadSettle (cancelled : Bool) (s : UserListState α)
    (outcome : FetchOutcome α) : Except RejectionValue (UserListState α) :=
  match
    (match loadTryBlock cancelled s outcome with
     | .ok s1 => Except.ok s1
     | .error err =>
         Except.ok (if cancelled then s else
           { s with error := some (normalizeError err) }))
  with
  | .ok s2 => .ok (if cancelled then s2 else { s2 with loading := false })
  | .error err => .error err

/-- An event of the loader's cooperative schedule: a new effect run
(`start`), the settlement of cycle `i`'s promise, or the unmount cleanup
(`dispose`). -/
inductive Event (α : Type) where
  | start
  | settle (cycle : Nat) (outcome : FetchOutcome α)
  | dispose

/-- Recognizes the `start` event. -/
def Event.isStart : Event α → Bool
  | .start => true
  | _ => false

/-- Recognizes a settlement of some cycle other than cycle `0`; used to
express that cycle `0`'s promise never settles while no `start` or
`dispose` occurs either. -/
def Event.settlesLaterCycle : Event α → Bool
  | .settle (_ + 1) _ => true
  | _ => false

/-- The full configuration of a mounted `UserList`: the state cells,
the number of fetch cycles started so far (cycle `i` is the `i`-th
effect run, `0 ≤ i < started`), and the `cancelled` and `settled` flag
of every cycle, as functions from the cycle index. -/
structure LoaderConfig (α : Type) where
  state : UserListState α
  started : Nat
  cancelledF : Nat → Bool
  settledF : Nat → Bool

/-- Pointwise update of a flag function. -/
def updateAt (f : Nat → Bool) (j : Nat) (b : Bool) : Nat → Bool :=
  fun i => if i = j then b else f i

/-- The configuration at mount time, before the first effect runs:
`users = []`, `loading = true`, `error = null`, no cycle started, every
flag still at its freshly-captured value `false`. -/
def initConfig (α : Type) : LoaderConfig α :=
  { state := { users := [], loading := true, error := none },
    started := 0,
    cancelledF := fun _ => false,
    settledF := fun _ => false }

/-- The effect cleanup `() => { cancelled = true; }` of the most recent
effect run: sets the `cancelled` flag of cycle `started - 1` (a no-op
when no cycle has started).  React invokes this both when the effect is
re-run and at unmount. -/
def cleanupPrev (c : LoaderConfig α) : Nat → Bool :=
  match c.started with
  | 0 => c.cancelledF
  | n + 1 => updateAt c.cancelledF n true

/-- A new effect run: React first runs the previous run's cleanup, then
the effect body calls `load`, which synchronously executes
`setLoading(true); setError(null)` and calls `fetchUsers()` before
suspending at the `await`.  The new cycle gets the next index with a
fresh `cancelled = false` flag. -/
def stepStart (c : LoaderConfig α) : LoaderConfig α :=
  { state := { c.state with loading := true, error := none },
    started := c.started + 1,
    cancelledF := cleanupPrev c,
    settledF := c.settledF }

/-- The unmount cleanup: run the current effect's cleanup.  The state
cells are untouched. -/
def stepDispose (c : LoaderConfig α) : LoaderConfig α :=
  { c with cancelledF := cleanupPrev c }

/-- Settlement of cycle `i`'s promise.  Only a started, not yet settled
cycle has a pending promise; its continuation (`loadSettle` with that
cycle's `cancelled` flag) runs atomically, and the promise is marked
settled.  `loadSettle` never returns an exception (see the never-throws
theorem); the `Except.error` fallback keeps the state unchanged. -/
def stepSettle (c : LoaderConfig α) (i : Nat) (outcome : FetchOutcome α) :
    LoaderConfig α :=
  if i < c.started ∧ c.settledF i = false then
    { c with
      state :=
        match loadSettle (c.cancelledF i) c.state outcome with
        | .ok s1 => s1
        | .error _ => c.state,
      settledF := updateAt c.settledF i true }
  else c

/-- One step of the cooperative schedule. -/
def step (c : LoaderConfig α) : Event α → LoaderConfig α
  | .start => stepStart c
  | .settle i outcome => stepSettle c i outcome
  | .dispose => stepDispose c

/-- Runs a list of events in order. -/
def run (c : LoaderConfig α) : List (Event α) → LoaderConfig α
  | [] => c
  | e :: es => run (step c e) es

/-- The abstract `LoadState` of the specification's data model. -/
inductive LoadState where
  | Loading
  | Success
  | Failure
  deriving DecidableEq

/-- Reads the abstract `LoadState` off the three state cells: `loading`
set means Loading; otherwise a non-null `error` means Failure, else
Success. -/
def absState (s : UserListState α) : LoadState :=
  if s.loading then LoadState.Loading
  else
    match s.error with
    | some _ => LoadState.Failure
    | none => LoadState.Success

/-- What `UserList` renders. -/
inductive View (α : Type) where
  | loadingSpinner
  | errorMessage (msg : String)
  | userList (users : List α)
  deriving DecidableEq

/-- The component's render logic: the spinner while `loading`; the error
banner on `if (error)` — which in JavaScript is falsy for the empty
string as well as for `null`; otherwise the list of users. -/
def render (s : UserListState α) : View α :=
  if s.loading then View.loadingSpinner
  else
    match s.error with
    | some msg => if msg = "" then View.userList s.users else View.errorMessage msg
    | none => View.userList s.users

/-- The state update an uncancelled settlement commits: on fulfillment
`users := data` and `loading := false`; on rejection
`error := normalizeError err` and `loading := false`. -/
def commitOutcome (outcome : FetchOutcome α) (s : UserListState α) :
    UserListState α :=
  match outcome with
  | .ok data => { s with users := data, loading := false }
  | .error err => { s with error := some (normalizeError err), loading := false }

/-- The reachability invariant of the loader: (1) every cycle but the
most recent is cancelled; (2) flags of not-yet-started cycles are still
`false`; (3) while `loading` is set, `error` is `null`; (4) while the
most recent cycle is neither cancelled nor settled, no commit has
happened since its start, so the cells read Loading. -/
def Inv (c : LoaderConfig α) : Prop :=
  (∀ i, i + 1 < c.started → c.cancelledF i = true) ∧
  (∀ i, c.started ≤ i → c.cancelledF i = false ∧ c.settledF i = false) ∧
  (c.state.loading = true → c.state.error = none) ∧
  (∀ n, c.started = n + 1 → c.cancelledF n = false → c.settledF n = false →
    c.state.loading = true ∧ c.state.error = none)

theorem updateAt_self (f : Nat → Bool) (j : Nat) (b : Bool) :
    updateAt f j b j = b := by
  simp [updateAt]

theorem updateAt_ne (f : Nat → Bool) (j : Nat) (b : Bool) {i : Nat}
    (h : i ≠ j) : updateAt f j b i = f i := by
  simp [updateAt, h]

theorem loadSettle_cancelled (s : UserListState α) (o : FetchOutcome α) :
    loadSettle true s o = Except.ok s := by
  cases o <;> rfl

theorem loadSettle_active (s : UserListState α) (o : FetchOutcome α) :
    loadSettle false s o = Except.ok (commitOutcome o s) := by
  cases o <;> rfl

theorem cleanupPrev_of_lt {c : LoaderConfig α}
    (h1 : ∀ i, i + 1 < c.started → c.cancelledF i = true)
    {i : Nat} (hi : i < c.started) : cleanupPrev c i = true := by
  cases hs : c.started with
  | zero => rw [hs] at hi; exact absurd hi (Nat.not_lt_zero i)
  | succ n =>
    rw [hs] at hi
    unfold cleanupPrev
    rw [hs]
    show updateAt c.cancelledF n true i = true
    by_cases hin : i = n
    · subst hin; exact updateAt_self ..
    · rw [updateAt_ne _ _ _ hin]
      exact h1 i (by omega)

theorem cleanupPrev_of_ge {c : LoaderConfig α} {i : Nat}
    (hi : c.started ≤ i) : cleanupPrev c i = c.cancelledF i := by
  cases hs : c.started with
  | zero => unfold cleanupPrev; rw [hs]
  | succ n =>
    rw [hs] at hi
    unfold cleanupPrev
    rw [hs]
    show updateAt c.cancelledF n true i = c.cancelledF i
    exact updateAt_ne _ _ _ (by omega)

theorem stepSettle_pos {c : LoaderConfig α} {i : Nat} (o : FetchOutcome α)
    (hg : i < c.started ∧ c.settledF i = false) :
    stepSettle c i o =
      { c with
        state :=
          match loadSettle (c.cancelledF i) c.state o with
          | .ok s1 => s1
          | .error _ => c.state,
        settledF := updateAt c.settledF i true } := by
  unfold stepSettle
  rw [if_pos hg]

theorem stepSettle_neg {c : LoaderConfig α} {i : Nat} (o : FetchOutcome α)
    (hg : ¬(i < c.started ∧ c.settledF i = false)) :
    stepSettle c i o = c := by
  unfold stepSettle
  rw [if_neg hg]

theorem stepSettle_state_cancelled {c : LoaderConfig α} {i : Nat}
    (o : FetchOutcome α) (hg : i < c.started ∧ c.settledF i = false)
    (hc : c.cancelledF i = true) : (stepSettle c i o).state = c.state := by
  rw [stepSettle_pos o hg, hc, loadSettle_cancelled]

theorem stepSettle_state_active {c : LoaderConfig α} {i : Nat}
    (o : FetchOutcome α) (hg : i < c.started ∧ c.settledF i = false)
    (hc : c.cancelledF i = false) :
    (stepSettle c i o).state = commitOutcome o c.state := by
  rw [stepSettle_pos o hg, hc, loadSettle_active]

theorem initConfig_inv (α : Type) : Inv (initConfig α) := by
  refine ⟨?_, ?_, ?_, ?_⟩
  · intro i hi; simp [initConfig] at hi
  · intro i _; exact ⟨rfl, rfl⟩
  · intro _; rfl
  · intro n hn; exact absurd hn (by simp [initConfig])

theorem step_inv {c : LoaderConfig α} (e : Event α) (h : Inv c) :
    Inv (step c e) := by
  obtain ⟨h1, h2, h3, h4⟩ := h
  cases e with
  | start =>
    refine ⟨?_, ?_, ?_, ?_⟩
    · intro i hi
      simp only [step, stepStart] at hi ⊢
      exact cleanupPrev_of_lt h1 (by omega)
    · intro i hi
      simp only [step, stepStart] at hi ⊢
      refine ⟨?_, (h2 i (by omega)).2⟩
      rw [cleanupPrev_of_ge (by omega)]
      exact (h2 i (by omega)).1
    · intro _; rfl
    · intro n _ _ _; exact ⟨rfl, rfl⟩
  | dispose =>
    refine ⟨?_, ?_, ?_, ?_⟩
    · intro i hi
      simp only [step, stepDispose] at hi ⊢
      exact cleanupPrev_of_lt h1 (by omega)
    · intro i hi
      simp only [step, stepDispose] at hi ⊢
      refine ⟨?_, (h2 i hi).2⟩
      rw [cleanupPrev_of_ge hi]
      exact (h2 i hi).1
    · exact h3
    · intro n hn hcn hsn
      simp only [step, stepDispose] at hn hcn
      have hravel : cleanupPrev c n = true := cleanupPrev_of_lt h1 (by omega)
      simp [hravel] at hcn
  | settle i o =>
    by_cases hg : i < c.started ∧ c.settledF i = false
    · have e1 : (step c (Event.settle i o)).started = c.started := by
        simp only [step]; rw [stepSettle_pos o hg]
      have e2 : (step c (Event.settle i o)).cancelledF = c.cancelledF := by
        simp only [step]; rw [stepSettle_pos o hg]
      have e3 : (step c (Event.settle i o)).settledF = updateAt c.settledF i true := by
        simp only [step]; rw [stepSettle_pos o hg]
      by_cases hc : c.cancelledF i = true
      · have e4 : (step c (Event.settle i o)).state = c.state := by
          simp only [step]; exact stepSettle_state_cancelled o hg hc
        refine ⟨?_, ?_, ?_, ?_⟩
        · intro j hj
          rw [e1] at hj; rw [e2]
          exact h1 j hj
        · intro j hj
          rw [e1] at hj; rw [e2, e3]
          refine ⟨(h2 j hj).1, ?_⟩
          have hij : i < c.started := hg.1
          rw [updateAt_ne _ _ _ (by omega)]
          exact (h2 j hj).2
        · rw [e4]; exact h3
        · intro n hn hcn hsn
          rw [e1] at hn; rw [e2] at hcn; rw [e3] at hsn; rw [e4]
          by_cases hni : n = i
          · subst hni; rw [updateAt_self] at hsn; exact absurd hsn (by simp)
          · rw [updateAt_ne _ _ _ hni] at hsn
            exact h4 n hn hcn hsn
      · have hcf : c.cancelledF i = false := by
          cases hcv : c.cancelledF i
          · rfl
          · exact absurd hcv hc
        have e4 : (step c (Event.settle i o)).state = commitOutcome o c.state := by
          simp only [step]; exact stepSettle_state_active o hg hcf
        refine ⟨?_, ?_, ?_, ?_⟩
        · intro j hj
          rw [e1] at hj; rw [e2]
          exact h1 j hj
        · intro j hj
          rw [e1] at hj; rw [e2, e3]
          refine ⟨(h2 j hj).1, ?_⟩
          have hij : i < c.started := hg.1
          rw [updateAt_ne _ _ _ (by omega)]
          exact (h2 j hj).2
        · rw [e4]
          intro hl
          exfalso
          cases o <;> simp [commitOutcome] at hl
        · intro n hn hcn hsn
          rw [e1] at hn; rw [e2] at hcn; rw [e3] at hsn
          exfalso
          by_cases hni : n = i
          · subst hni; rw [updateAt_self] at hsn; exact absurd hsn (by simp)
          · have hin : i + 1 < c.started := by
              have := hg.1
              omega
            rw [h1 i hin] at hcf
            exact absurd hcf (by simp)
    · have heq : step c (Event.settle i o) = c := by
        simp only [step]; exact stepSettle_neg o hg
      rw [heq]
      exact ⟨h1, h2, h3, h4⟩

theorem run_inv {c : LoaderConfig α} (es : List (Event α)) (h : Inv c) :
    Inv (run c es) := by
  induction es generalizing c with
  | nil => exact h
  | cons e es ih => exact ih (step_inv e h)

theorem run_initConfig_inv (α : Type) (t : List (Event α)) :
    Inv (run (initConfig α) t) :=
  run_inv t (initConfig_inv α)

theorem run_append (c : LoaderConfig α) (t u : List (Event α)) :
    run c (t ++ u) = run (run c t) u := by
  induction t generalizing c with
  | nil => rfl
  | cons e t ih => exact ih (step c e)

theorem stepSettle_started (c : LoaderConfig α) (i : Nat) (o : FetchOutcome α) :
    (stepSettle c i o).started = c.started := by
  unfold stepSettle
  split <;> rfl

theorem stepSettle_cancelledF (c : LoaderConfig α) (i : Nat)
    (o : FetchOutcome α) : (stepSettle c i o).cancelledF = c.cancelledF := by
  unfold stepSettle
  split <;> rfl

theorem stepSettle_settledF_pos {c : LoaderConfig α} {i : Nat}
    (o : FetchOutcome α) (hg : i < c.started ∧ c.settledF i = false) :
    (stepSettle c i o).settledF = updateAt c.settledF i true := by
  rw [stepSettle_pos o hg]

/-- After two consecutive `start` events from a configuration satisfying
the invariant, the earlier of the two new cycles is cancelled, the later
one is live, and neither is settled; settling them in either order makes
only the later cycle's outcome land. -/
theorem lastStartedWins {c : LoaderConfig α} (h : Inv c)
    (oA oB : FetchOutcome α) :
    (run c [Event.start, Event.start, Event.settle c.started oA,
        Event.settle (c.started + 1) oB]).state
      = commitOutcome oB (run c [Event.start, Event.start]).state
    ∧ (run c [Event.start, Event.start, Event.settle (c.started + 1) oB,
        Event.settle c.started oA]).state
      = commitOutcome oB (run c [Event.start, Event.start]).state
    ∧ (run c [Event.start, Event.start, Event.settle c.started oA]).state
      = (run c [Event.start, Event.start]).state := by
  obtain ⟨h1, h2, h3, h4⟩ := h
  have g2cA : (stepStart (stepStart c)).cancelledF c.started = true := by
    show updateAt (cleanupPrev c) c.started true c.started = true
    exact updateAt_self ..
  have g2cB : (stepStart (stepStart c)).cancelledF (c.started + 1) = false := by
    show updateAt (cleanupPrev c) c.started true (c.started + 1) = false
    rw [updateAt_ne _ _ _ (by omega), cleanupPrev_of_ge (by omega)]
    exact (h2 _ (by omega)).1
  have g2sA : (stepStart (stepStart c)).settledF c.started = false :=
    (h2 _ (by omega)).2
  have g2sB : (stepStart (stepStart c)).settledF (c.started + 1) = false :=
    (h2 _ (by omega)).2
  have hgA : c.started < (stepStart (stepStart c)).started ∧
      (stepStart (stepStart c)).settledF c.started = false :=
    ⟨(by omega : c.started < c.started + 2), g2sA⟩
  have hgB : c.started + 1 < (stepStart (stepStart c)).started ∧
      (stepStart (stepStart c)).settledF (c.started + 1) = false :=
    ⟨(by omega : c.started + 1 < c.started + 2), g2sB⟩
  have dA_state : (stepSettle (stepStart (stepStart c)) c.started oA).state
      = (stepStart (stepStart c)).state :=
    stepSettle_state_cancelled oA hgA g2cA
  have dB_state : (stepSettle (stepStart (stepStart c)) (c.started + 1) oB).state
      = commitOutcome oB (stepStart (stepStart c)).state :=
    stepSettle_state_active oB hgB g2cB
  have hgB1 : c.started + 1 <
      (stepSettle (stepStart (stepStart c)) c.started oA).started ∧
      (stepSettle (stepStart (stepStart c)) c.started oA).settledF
        (c.started + 1) = false := by
    constructor
    · rw [stepSettle_started]
      exact (by omega : c.started + 1 < c.started + 2)
    · rw [stepSettle_settledF_pos oA hgA, updateAt_ne _ _ _ (by omega)]
      exact g2sB
  have hgA2 : c.started <
      (stepSettle (stepStart (stepStart c)) (c.started + 1) oB).started ∧
      (stepSettle (stepStart (stepStart c)) (c.started + 1) oB).settledF
        c.started = false := by
    constructor
    · rw [stepSettle_started]
      exact (by omega : c.started < c.started + 2)
    · rw [stepSettle_settledF_pos oB hgB, updateAt_ne _ _ _ (by omega)]
      exact g2sA
  refine ⟨?_, ?_, dA_state⟩
  · show (stepSettle (stepSettle (stepStart (stepStart c)) c.started oA)
        (c.started + 1) oB).state
      = commitOutcome oB (stepStart (stepStart c)).state
    rw [stepSettle_state_active oB hgB1
      (by rw [stepSettle_cancelledF]; exact g2cB), dA_state]
  · show (stepSettle (stepSettle (stepStart (stepStart c)) (c.started + 1) oB)
        c.started oA).state
      = commitOutcome oB (stepStart (stepStart c)).state
    rw [stepSettle_state_cancelled oA hgA2
      (by rw [stepSettle_cancelledF]; exact g2cA), dB_state]

/-- Every started cycle's `cancelled` flag is set; this is the situation
right after the unmount cleanup has run. -/
def AllCancelled (c : LoaderConfig α) : Prop :=
  ∀ i, i < c.started → c.cancelledF i = true

theorem allCancelled_stepDispose {c : LoaderConfig α}
    (h1 : ∀ i, i + 1 < c.started → c.cancelledF i = true) :
    AllCancelled (stepDispose c) := by
  intro i hi
  show cleanupPrev c i = true
  exact cleanupPrev_of_lt h1 hi

theorem step_preserves_allCancelled {c : LoaderConfig α} (e : Event α)
    (hA : AllCancelled c) (he : e.isStart = false) :
    (step c e).state = c.state ∧ AllCancelled (step c e) := by
  cases e with
  | start => simp [Event.isStart] at he
  | dispose =>
    refine ⟨rfl, ?_⟩
    intro i hi
    show cleanupPrev c i = true
    exact cleanupPrev_of_lt (fun j hj => hA j (by omega)) hi
  | settle i o =>
    simp only [step]
    by_cases hg : i < c.started ∧ c.settledF i = false
    · refine ⟨stepSettle_state_cancelled o hg (hA i hg.1), ?_⟩
      intro j hj
      rw [stepSettle_started] at hj
      rw [stepSettle_cancelledF]
      exact hA j hj
    · rw [stepSettle_neg o hg]
      exact ⟨rfl, hA⟩

theorem run_preserves_allCancelled {c : LoaderConfig α}
    (u : List (Event α)) (hA : AllCancelled c)
    (hu : u.all (fun e => !e.isStart) = true) : (run c u).state = c.state := by
  induction u generalizing c with
  | nil => rfl
  | cons e u ih =>
    rw [List.all_cons] at hu
    have he : e.isStart = false := by
      cases hev : e.isStart
      · rfl
      · rw [hev] at hu; simp at hu
    have hrest : u.all (fun x => !x.isStart) = true := by
      rw [he] at hu; simpa using hu
    obtain ⟨hs, hA2⟩ := step_preserves_allCancelled e hA he
    show (run (step c e) u).state = c.state
    rw [ih hA2 hrest, hs]

theorem step_noop_of_laterCycle {c : LoaderConfig α} (hs : c.started = 1)
    (e : Event α) (he : e.settlesLaterCycle = true) : step c e = c := by
  cases e with
  | start => simp [Event.settlesLaterCycle] at he
  | dispose => simp [Event.settlesLaterCycle] at he
  | settle i o =>
    cases i with
    | zero => simp [Event.settlesLaterCycle] at he
    | succ m =>
      simp only [step]
      apply stepSettle_neg
      intro hcon
      have := hcon.1
      omega

theorem run_noop_of_laterCycles {c : LoaderConfig α} (hs : c.started = 1)
    (u : List (Event α)) (hu : u.all Event.settlesLaterCycle = true) :
    run c u = c := by
  induction u with
  | nil => rfl
  | cons e u ih =>
    rw [List.all_cons] at hu
    have he : e.settlesLaterCycle = true := by
      cases hev : e.settlesLaterCycle
      · rw [hev] at hu; simp at hu
      · rfl
    have hrest : u.all Event.settlesLaterCycle = true := by
      rw [he] at hu; simpa using hu
    show run (step c e) u = c
    rw [step_noop_of_laterCycle hs e he]
    exact ih hrest

/-- C1: for two overlapping fetch cycles started one after the other from
any reachable configuration — cycle A at index `started`, cycle B at
index `started + 1` — the state after both settle is B's outcome
committed onto the post-start state, in either settlement order, and A's
settlement alone commits nothing: last-started wins. -/
theorem C1_last_started_wins (α : Type) (t : List (Event α))
    (oA oB : FetchOutcome α) :
    (run (initConfig α) (t ++ [Event.start, Event.start,
        Event.settle (run (initConfig α) t).started oA,
        Event.settle ((run (initConfig α) t).started + 1) oB])).state
      = commitOutcome oB
          (run (initConfig α) (t ++ [Event.start, Event.start])).state
    ∧ (run (initConfig α) (t ++ [Event.start, Event.start,
        Event.settle ((run (initConfig α) t).started + 1) oB,
        Event.settle (run (initConfig α) t).started oA])).state
      = commitOutcome oB
          (run (initConfig α) (t ++ [Event.start, Event.start])).state
    ∧ (run (initConfig α) (t ++ [Event.start, Event.start,
        Event.settle (run (initConfig α) t).started oA])).state
      = (run (initConfig α) (t ++ [Event.start, Event.start])).state := by
  simp only [run_append]
  exact lastStartedWins (run_initConfig_inv α t) oA oB

/-- C2: once `dispose` has run, the settlement of any still-pending cycle
— and in fact any further schedule without a new `start` — leaves every
state cell exactly as it was at dispose time. -/
theorem C2_dispose_discards (α : Type) (t u : List (Event α))
    (hu : u.all (fun e => !e.isStart) = true) :
    (run (run (initConfig α) t) (Event.dispose :: u)).state
      = (run (initConfig α) t).state := by
  have hA : AllCancelled (stepDispose (run (initConfig α) t)) :=
    allCancelled_stepDispose (run_initConfig_inv α t).1
  show (run (stepDispose (run (initConfig α) t)) u).state
    = (run (initConfig α) t).state
  rw [run_preserves_allCancelled u hA hu]
  rfl

/-- C2 witness: scenario D of the specification — `start`, then
`dispose`, then the pending fetch resolves with `["z"]`; the state stays
exactly what it was at dispose time (still Loading). -/
theorem C2_dispose_discards_witness :
    (List.all [Event.settle 0 (Except.ok ["z"])] (fun e => !e.isStart) = true)
    ∧ (run (run (initConfig String) [Event.start])
        (Event.dispose :: [Event.settle 0 (Except.ok ["z"])])).state
      = (run (initConfig String) [Event.start]).state :=
  ⟨by decide, C2_dispose_discards String [Event.start]
    [Event.settle 0 (Except.ok ["z"])] (by decide)⟩

/-- C3 counterexample: after a successful first cycle commits `["a"]`, a
retriggered `start` puts the loader back in Loading while `users` still
holds `["a"]` — so data is populated while the state is Loading,
contradicting the claim that both cells are absent during Loading. -/
theorem C3_counterexample :
    absState (run (initConfig String)
        [Event.start, Event.settle 0 (Except.ok ["a"]), Event.start]).state
      = LoadState.Loading
    ∧ (run (initConfig String)
        [Event.start, Event.settle 0 (Except.ok ["a"]), Event.start]).state.users
      = ["a"] :=
  ⟨rfl, rfl⟩

/-- C3 amended: in every reachable configuration `error` is absent
whenever `loading` is set, and `error` is populated exactly when the
abstract state is Failure; the `users` cell, however, persists across
cycles — a `start` never clears it — so no data-iff-Success direction
holds; in the fresh loader's first Loading state `users` is `[]` and
`error` is absent. -/
theorem C3_state_exclusivity (α : Type) (t : List (Event α)) :
    ((run (initConfig α) t).state.loading = false
      ∨ (run (initConfig α) t).state.error = none)
    ∧ (absState (run (initConfig α) t).state = LoadState.Failure
        ↔ (run (initConfig α) t).state.error.isSome = true)
    ∧ (step (run (initConfig α) t) Event.start).state.users
        = (run (initConfig α) t).state.users
    ∧ (run (initConfig α) [Event.start]).state.users = ([] : List α)
    ∧ (run (initConfig α) [Event.start]).state.error = none := by
  obtain ⟨h1, h2, h3, h4⟩ := run_initConfig_inv α t
  refine ⟨?_, ?_, rfl, rfl, rfl⟩
  · cases hl : (run (initConfig α) t).state.loading
    · exact Or.inl rfl
    · exact Or.inr (h3 hl)
  · cases hl : (run (initConfig α) t).state.loading
    · cases he : (run (initConfig α) t).state.error <;> simp [absState, hl, he]
    · simp [absState, hl, h3 hl]

/-- C4 counterexample: rejecting with a non-Error value that does carry a
`message` field (`{ message: "oops" }`) commits the fallback string, not
the carried message, because the `catch` branch tests `instanceof Error`
rather than the presence of a `message` field. -/
theorem C4_counterexample :
    (run (initConfig String) [Event.start,
        Event.settle 0 (Except.error (RejectionValue.nonError (some "oops")))]).state.error
      = some "Something went wrong"
    ∧ (run (initConfig String) [Event.start,
        Event.settle 0 (Except.error (RejectionValue.nonError (some "oops")))]).state.error
      ≠ some "oops" := by
  exact ⟨rfl, by decide⟩

/-- C4 amended: a rejection that is an `Error` instance commits its
`message` verbatim (`new Error("boom")` yields `"boom"`), while a
non-Error rejection — with or without a `message` field — always commits
the fixed fallback string. -/
theorem C4_error_message (α : Type) (m : String) (o : Option String) :
    (run (initConfig α) [Event.start,
        Event.settle 0 (Except.error (RejectionValue.errorInstance m))]).state.error
      = some m
    ∧ (run (initConfig α) [Event.start,
        Event.settle 0 (Except.error (RejectionValue.nonError o))]).state.error
      = some "Something went wrong" :=
  ⟨rfl, rfl⟩

/-- C5 counterexample: rejecting with `new Error("")` commits the empty
string as the error message — and the component then renders the user
list rather than the error banner, since `if (error)` is falsy for the
empty string. -/
theorem C5_counterexample :
    (run (initConfig String) [Event.start,
        Event.settle 0 (Except.error (RejectionValue.errorInstance ""))]).state.error
      = some ""
    ∧ render (run (initConfig String) [Event.start,
        Event.settle 0 (Except.error (RejectionValue.errorInstance ""))]).state
      = View.userList [] := by
  exact ⟨rfl, by decide⟩

/-- C5 amended: the committed message is non-empty for every non-Error
rejection (it is the fixed fallback string, which is non-empty), but an
`Error` rejection's message is committed verbatim, so it is empty exactly
when the `Error` was built with an empty message. -/
theorem C5_fallback_nonempty (α : Type) (o : Option String) (m : String) :
    (run (initConfig α) [Event.start,
        Event.settle 0 (Except.error (RejectionValue.nonError o))]).state.error
      = some "Something went wrong"
    ∧ ("Something went wrong" : String) ≠ ""
    ∧ (run (initConfig α) [Event.start,
        Event.settle 0 (Except.error (RejectionValue.errorInstance m))]).state.error
      = some m :=
  ⟨rfl, by decide, rfl⟩

/-- C6 counterexample: a retriggered `start` after a failed cycle moves
the loader from Failure directly to Loading — a transition the claim
says never occurs. -/
theorem C6_counterexample :
    absState (run (initConfig String) [Event.start,
        Event.settle 0 (Except.error (RejectionValue.errorInstance "boom"))]).state
      = LoadState.Failure
    ∧ absState (run (initConfig String) [Event.start,
        Event.settle 0 (Except.error (RejectionValue.errorInstance "boom")),
        Event.start]).state
      = LoadState.Loading :=
  ⟨rfl, rfl⟩

/-- C6 amended: from any reachable configuration, a step either leaves
the abstract state unchanged, is a `start` and lands in Loading (from
any state, including a terminal one on retrigger), or is a settlement
that commits out of Loading into Success or Failure; in particular no
settlement ever changes a terminal state, and no step moves between
Success and Failure directly. -/
theorem C6_transitions (α : Type) (t : List (Event α)) (e : Event α) :
    absState (step (run (initConfig α) t) e).state
        = absState (run (initConfig α) t).state
    ∨ (e.isStart = true
        ∧ absState (step (run (initConfig α) t) e).state = LoadState.Loading)
    ∨ (absState (run (initConfig α) t).state = LoadState.Loading
        ∧ (absState (step (run (initConfig α) t) e).state = LoadState.Success
          ∨ absState (step (run (initConfig α) t) e).state = LoadState.Failure)) := by
  obtain ⟨h1, h2, h3, h4⟩ := run_initConfig_inv α t
  cases e with
  | start => exact Or.inr (Or.inl ⟨rfl, rfl⟩)
  | dispose => exact Or.inl rfl
  | settle i o =>
    by_cases hg : i < (run (initConfig α) t).started
        ∧ (run (initConfig α) t).settledF i = false
    · by_cases hcv : (run (initConfig α) t).cancelledF i = true
      · left
        simp only [step]
        rw [stepSettle_state_cancelled o hg hcv]
      · have hcf : (run (initConfig α) t).cancelledF i = false := by
          cases h2v : (run (initConfig α) t).cancelledF i
          · rfl
          · exact absurd h2v hcv
        have hn1 : (run (initConfig α) t).started = i + 1 := by
          have hnlt : ¬(i + 1 < (run (initConfig α) t).started) := by
            intro hlt
            rw [h1 i hlt] at hcf
            exact absurd hcf (by simp)
          have := hg.1
          omega
        obtain ⟨hl, he⟩ := h4 i hn1 hcf hg.2
        refine Or.inr (Or.inr ⟨by simp [absState, hl], ?_⟩)
        have hst : (step (run (initConfig α) t) (Event.settle i o)).state
            = commitOutcome o (run (initConfig α) t).state := by
          simp only [step]
          exact stepSettle_state_active o hg hcf
        rw [hst]
        cases o with
        | ok data => exact Or.inl (by simp [absState, commitOutcome, he])
        | error err => exact Or.inr (by simp [absState, commitOutcome])
    · left
      simp only [step]
      rw [stepSettle_neg o hg]

/-- C7: the settlement handling of `load` — the `try`/`catch`/`finally`
around the awaited fetch — never lets an exception escape: for every
rejection value (and every fulfillment), the handler returns an ordinary
state, never an exceptional result. -/
theorem C7_never_throws (α : Type) (cancelled : Bool) (s : UserListState α)
    (outcome : FetchOutcome α) :
    ∃ s1, loadSettle cancelled s outcome = Except.ok s1 := by
  cases cancelled <;> cases outcome <;> exact ⟨_, rfl⟩

/-- C8: a single fetch cycle from a fresh loader that fulfills with `l`,
with no intervening start or dispose, ends in Success with `users`
exactly `l`, `loading` cleared and `error` absent. -/
theorem C8_single_success (α : Type) (l : List α) :
    (run (initConfig α) [Event.start, Event.settle 0 (Except.ok l)]).state
      = { users := l, loading := false, error := none }
    ∧ absState (run (initConfig α)
        [Event.start, Event.settle 0 (Except.ok l)]).state = LoadState.Success :=
  ⟨rfl, rfl⟩

/-- C9: if cycle 0's promise never settles and no further start or
dispose occurs — so the only deliverable events concern other, never
started cycles — the loader's configuration is untouched and its state
reads Loading at every subsequent point. -/
theorem C9_perpetual_loading (α : Type) (u : List (Event α))
    (hu : u.all Event.settlesLaterCycle = true) :
    (run (run (initConfig α) [Event.start]) u).state
      = (run (initConfig α) [Event.start]).state
    ∧ absState (run (run (initConfig α) [Event.start]) u).state
      = LoadState.Loading := by
  rw [run_noop_of_laterCycles rfl u hu]
  exact ⟨rfl, rfl⟩

/-- C9 witness: with no settlement of cycle 0 delivered, the loader is
still Loading. -/
theorem C9_perpetual_loading_witness :
    (List.all [Event.settle 1 (Except.ok (["w"] : List String))]
        Event.settlesLaterCycle = true)
    ∧ ((run (run (initConfig String) [Event.start])
        [Event.settle 1 (Except.ok ["w"])]).state
      = (run (initConfig String) [Event.start]).state
    ∧ absState (run (run (initConfig String) [Event.start])
        [Event.settle 1 (Except.ok ["w"])]).state = LoadState.Loading) :=
  ⟨by decide, C9_perpetual_loading String
    [Event.settle 1 (Except.ok ["w"])] (by decide)⟩

/-- C10: every non-Error rejection value — a string, a number, or a plain
object even with a `message` field — normalizes to the fixed fallback
string `"Something went wrong"`, and that is what the Failure state
commits. -/
theorem C10_fallback_message (α : Type) (o : Option String) :
    normalizeError (RejectionValue.nonError o) = "Something went wrong"
    ∧ (run (initConfig α) [Event.start,
        Event.settle 0 (Except.error (RejectionValue.nonError o))]).state.error
      = some "Something went wrong" :=
  ⟨rfl, rfl⟩

end AsyncLoader
